import Mathlib

/-
  Verification of gridmaker (src/gridmaker.py): a shallow embedding of the
  grid-overlay renderer and its command-line driver, with theorems checking
  the natural-language specification against the code.

  Modelling conventions:
  * Characters are modelled by their Unicode code points (`Nat`), matching
    Python's `chr`/string semantics on the arguments the program produces.
  * The PIL `ImageDraw` calls issued by `draw_grid` are embedded as a list of
    drawing commands (`Cmd`), produced in exactly the order of the source's
    two loops.  `ImageDraw` on an RGBA image replaces pixel values (it does
    not blend), so the overlay raster is the fold that writes each command's
    fill colour over its pixel footprint.
  * Font metrics are external to the repository: `draw.textbbox` is a
    parameter (`BBoxFn`) of the embedding; concrete witnesses instantiate it
    with a simple fixed-size font model (`bbox0`, 6 by 11 pixels per glyph).
  * The stroke of a thickness-`w` line is modelled as the `w` pixel
    rows/columns starting at the line coordinate.  PIL centres the stroke on
    the segment, which shifts this band by about `w / 2` but changes none of
    the properties proved here.  The pixels written by `draw.text` are a
    subset of the text's bounding box; the footprint model uses the full box.
  * `Image.alpha_composite` is source-over alpha compositing on straight
    8-bit alpha.  When both pixels are fully transparent the result is fully
    transparent; the model keeps the backdrop's channel values in that
    degenerate case (the composite is colour-equivalent).
-/

/-- An RGBA pixel or colour value, one natural number per 8-bit channel. -/
structure RGBA where
  r : Nat
  g : Nat
  b : Nat
  a : Nat
  deriving DecidableEq, Repr

/-- The type of `draw.textbbox((x, y), text, font=font)`: given the anchor
and the text's code points, returns the bounding box (x0, y0, x1, y1). -/
abbrev BBoxFn := (Int × Int) → List Nat → Int × Int × Int × Int

/-- Embeds `get_column_label` (src/gridmaker.py lines 55-69), with `chr`
modelled by the code point itself:
`if index < 26: return chr(65 + index)`
`else: return chr(65 + (index // 26) - 1) + chr(65 + (index % 26))`. -/
def get_column_label (index : Nat) : List Nat :=
  if index < 26 then
    [65 + index]
  else
    [65 + index / 26 - 1, 65 + index % 26]

/-- The column-label formula as the specification words it: the letter at
position `index` when `index < 26`, else the letter at position
`(index div 26) - 1` followed by the letter at position `(index mod 26)`. -/
def label_spec (index : Nat) : List Nat :=
  if index < 26 then
    [65 + index]
  else
    [65 + (index / 26 - 1), 65 + index % 26]

/-- Reversed decimal digits of `n`, with enough fuel for structural
recursion. -/
def digitsRevAux : Nat → Nat → List Nat
  | 0, _ => []
  | _ + 1, 0 => []
  | fuel + 1, n + 1 => ((n + 1) % 10) :: digitsRevAux fuel ((n + 1) / 10)

/-- Code points of Python's `str(n)` for a natural number `n`. -/
def decimalDigits (n : Nat) : List Nat :=
  if n = 0 then [48] else (digitsRevAux n n).reverse.map (fun d => 48 + d)

/-- One drawing command issued on the overlay by `draw_grid`:
`hline y` embeds `draw.line([(0, y), (width, y)], fill, width=w)`,
`vline x` embeds `draw.line([(x, 0), (x, height)], fill, width=w)`,
`rect` embeds `draw.rectangle([x0, y0, x1, y1], fill=...)`, and
`text` embeds `draw.text((x, y), s, fill=..., font=font)`. -/
inductive Cmd where
  | hline (y : Nat) (fill : RGBA) (w : Nat)
  | vline (x : Nat) (fill : RGBA) (w : Nat)
  | rect (x0 y0 x1 y1 : Int) (fill : RGBA)
  | text (x y : Int) (s : List Nat) (fill : RGBA)
  deriving DecidableEq, Repr

/-- Iteration `i` of the horizontal-line loop (src/gridmaker.py lines
132-156): skip when `y >= height`, else draw the line, the label background
rectangle (text bounding box padded by 2 on each side, fill
`(255, 255, 255, 200)`) and the label text (`str(i + 1)`, fill
`(0, 0, 0, 255)`) at anchor `(10, y + thickness + 2)`. -/
def rowStep (height spacing thickness : Nat) (grid_color : RGBA)
    (bbox : BBoxFn) (i : Nat) : List Cmd :=
  if i * spacing ≥ height then
    []
  else
    let row_label := decimalDigits (i + 1)
    let label_y : Int := Int.ofNat (i * spacing) + Int.ofNat thickness + 2
    let bb := bbox (10, label_y) row_label
    [Cmd.hline (i * spacing) grid_color thickness,
     Cmd.rect (bb.1 - 2) (bb.2.1 - 2) (bb.2.2.1 + 2) (bb.2.2.2 + 2)
       ⟨255, 255, 255, 200⟩,
     Cmd.text 10 label_y row_label ⟨0, 0, 0, 255⟩]

/-- Iteration `i` of the vertical-line loop (src/gridmaker.py lines
159-183): skip when `x >= width`, else draw the line, the label background
rectangle and the label text (`get_column_label(i)`) at anchor
`(x + thickness + 2, 10)`. -/
def colStep (width spacing thickness : Nat) (grid_color : RGBA)
    (bbox : BBoxFn) (i : Nat) : List Cmd :=
  if i * spacing ≥ width then
    []
  else
    let col_label := get_column_label i
    let label_x : Int := Int.ofNat (i * spacing) + Int.ofNat thickness + 2
    let bb := bbox (label_x, 10) col_label
    [Cmd.vline (i * spacing) grid_color thickness,
     Cmd.rect (bb.1 - 2) (bb.2.1 - 2) (bb.2.2.1 + 2) (bb.2.2.2 + 2)
       ⟨255, 255, 255, 200⟩,
     Cmd.text label_x 10 col_label ⟨0, 0, 0, 255⟩]

/-- The full command sequence of `draw_grid` (src/gridmaker.py lines
121-183): `grid_color = color + (opacity,)`,
`num_horizontal = height // spacing + 1`, `num_vertical = width // spacing
+ 1`, the horizontal loop followed by the vertical loop. -/
def draw_grid_cmds (width height spacing : Nat) (color : Nat × Nat × Nat)
    (opacity thickness : Nat) (bbox : BBoxFn) : List Cmd :=
  let grid_color : RGBA := ⟨color.1, color.2.1, color.2.2, opacity⟩
  (List.range (height / spacing + 1)).flatMap
      (rowStep height spacing thickness grid_color bbox) ++
    (List.range (width / spacing + 1)).flatMap
      (colStep width spacing thickness grid_color bbox)

/-- The fill colour of a drawing command. -/
def fillOf : Cmd → RGBA
  | Cmd.hline _ f _ => f
  | Cmd.vline _ f _ => f
  | Cmd.rect _ _ _ _ f => f
  | Cmd.text _ _ _ f => f

/-- Whether a command is a grid line (horizontal or vertical). -/
def isLine : Cmd → Bool
  | Cmd.hline _ _ _ => true
  | Cmd.vline _ _ _ => true
  | _ => false

/-- Whether a command is a label background rectangle. -/
def isRect : Cmd → Bool
  | Cmd.rect _ _ _ _ _ => true
  | _ => false

/-- Whether a command is label text. -/
def isText : Cmd → Bool
  | Cmd.text _ _ _ _ => true
  | _ => false

/-- The offset of a vertical-line command, if the command is one. -/
def vlineX : Cmd → Option Nat
  | Cmd.vline x _ _ => some x
  | _ => none

/-- The offset of a horizontal-line command, if the command is one. -/
def hlineY : Cmd → Option Nat
  | Cmd.hline y _ _ => some y
  | _ => none

/-- The x offsets of all vertical lines in a command sequence. -/
def verticalOffsets (cmds : List Cmd) : List Nat :=
  cmds.filterMap vlineX

/-- The y offsets of all horizontal lines in a command sequence. -/
def horizontalOffsets (cmds : List Cmd) : List Nat :=
  cmds.filterMap hlineY

/-- The pixel footprint of a command: the set of overlay pixels it writes.
Lines span the full image extent across their axis and `w` pixels along it;
rectangles include both corners (PIL `rectangle` is corner-inclusive); text
writes within the text's bounding box. -/
def inFootprint (width height : Nat) (bbox : BBoxFn) (c : Cmd)
    (p : Nat × Nat) : Bool :=
  match c with
  | Cmd.hline y _ w => decide (p.1 ≤ width ∧ y ≤ p.2 ∧ p.2 < y + w)
  | Cmd.vline x _ w => decide (p.2 ≤ height ∧ x ≤ p.1 ∧ p.1 < x + w)
  | Cmd.rect x0 y0 x1 y1 _ =>
      decide (x0 ≤ (p.1 : Int) ∧ (p.1 : Int) ≤ x1 ∧
        y0 ≤ (p.2 : Int) ∧ (p.2 : Int) ≤ y1)
  | Cmd.text x y s _ =>
      let bb := bbox (x, y) s
      decide (bb.1 ≤ (p.1 : Int) ∧ (p.1 : Int) ≤ bb.2.2.1 ∧
        bb.2.1 ≤ (p.2 : Int) ∧ (p.2 : Int) ≤ bb.2.2.2)

/-- Executing one command on the overlay raster: `ImageDraw` replaces the
pixel value (fill colour and alpha) on the command's footprint. -/
def applyCmd (width height : Nat) (bbox : BBoxFn)
    (ov : Nat × Nat → RGBA) (c : Cmd) : Nat × Nat → RGBA :=
  fun p => if inFootprint width height bbox c p then fillOf c else ov p

/-- The overlay raster after executing all commands, starting from the fully
transparent layer `Image.new('RGBA', (width, height), (0, 0, 0, 0))`. -/
def renderOverlay (width height : Nat) (bbox : BBoxFn)
    (cmds : List Cmd) : Nat × Nat → RGBA :=
  cmds.foldl (applyCmd width height bbox) (fun _ => ⟨0, 0, 0, 0⟩)

/-- Source-over alpha compositing of `src` over `dst` on straight 8-bit
alpha, as performed per pixel by `Image.alpha_composite`.  Channel values
are exact in the cases of interest (`src.a = 0` and `src.a = 255`); when the
result is fully transparent the backdrop's channels are kept. -/
def alpha_over (src dst : RGBA) : RGBA :=
  let outA255 := src.a * 255 + dst.a * (255 - src.a)
  if outA255 = 0 then dst
  else
    ⟨(src.r * src.a * 255 + dst.r * (dst.a * (255 - src.a))) / outA255,
     (src.g * src.a * 255 + dst.g * (dst.a * (255 - src.a))) / outA255,
     (src.b * src.a * 255 + dst.b * (dst.a * (255 - src.a))) / outA255,
     outA255 / 255⟩

/-- An RGBA image: dimensions plus a pixel map. -/
structure Img where
  width : Nat
  height : Nat
  px : Nat × Nat → RGBA

/-- Embeds `draw_grid` (src/gridmaker.py lines 71-187): build the command
list, render it on a transparent overlay of the same size as the input, and
alpha-composite the overlay over the input. -/
def draw_grid (image : Img) (spacing : Nat) (color : Nat × Nat × Nat)
    (opacity thickness : Nat) (bbox : BBoxFn) : Img :=
  let cmds :=
    draw_grid_cmds image.width image.height spacing color opacity thickness
      bbox
  let overlay := renderOverlay image.width image.height bbox cmds
  ⟨image.width, image.height, fun p => alpha_over (overlay p) (image.px p)⟩

/-- The environment `main` (src/gridmaker.py lines 189-257) runs in: whether
the input path exists, whether `Image.open` succeeds, the supplied
`--opacity` value, and whether the render-and-save phase completes without
an unexpected exception. -/
structure Env where
  input_exists : Bool
  image_openable : Bool
  opacity : Int
  render_and_save_ok : Bool
  deriving DecidableEq, Repr

/-- The observable outcome of `main`: the returned exit code, the messages
printed to standard error, the opacity value actually passed to
`draw_grid`, and whether the invalid-opacity warning was logged. -/
structure Outcome where
  exit_code : Nat
  stderr : List String
  used_opacity : Option Int
  opacity_warning : Bool
  deriving DecidableEq, Repr

/-- Embeds `main`'s control flow (src/gridmaker.py lines 199-257): a missing
input raises `FileNotFoundError` (caught, exit 1); an unopenable image
raises `ValueError` (caught, exit 1); an opacity outside [0, 255] is reset
to 128 with a warning; any unexpected exception while rendering or saving
is caught (exit 1); otherwise exit 0. -/
def main_run (e : Env) : Outcome :=
  if e.input_exists = false then
    ⟨1, ["Error: Input file not found"], none, false⟩
  else if e.image_openable = false then
    ⟨1, ["Error: Failed to open image"], none, false⟩
  else if e.render_and_save_ok = false then
    ⟨1, ["Unexpected error"],
      some (if 0 ≤ e.opacity ∧ e.opacity ≤ 255 then e.opacity else 128),
      !decide (0 ≤ e.opacity ∧ e.opacity ≤ 255)⟩
  else
    ⟨0, [],
      some (if 0 ≤ e.opacity ∧ e.opacity ≤ 255 then e.opacity else 128),
      !decide (0 ≤ e.opacity ∧ e.opacity ≤ 255)⟩

/-- A concrete font-metric model used to instantiate the `BBoxFn` parameter
in witnesses and counterexamples: every glyph occupies a 6 by 11 box at the
anchor, in the style of PIL's built-in bitmap font. -/
def bbox0 : BBoxFn :=
  fun xy s => (xy.1, xy.2, xy.1 + 6 * (s.length : Int), xy.2 + 11)

/-- A 20 by 20 test image of a single opaque colour. -/
def image0 : Img :=
  ⟨20, 20, fun _ => ⟨10, 20, 30, 255⟩⟩

/-- The command sequence for the 20 by 20 test image with spacing 8, colour
(0, 0, 255), opacity 0, thickness 2, under the `bbox0` font model. -/
def cmds0 : List Cmd :=
  draw_grid_cmds 20 20 8 (0, 0, 255) 0 2 bbox0

/-- Classification of the fill colour of a command emitted by `draw_grid`:
lines carry the grid colour, label backgrounds carry `(255, 255, 255, 200)`,
label text carries `(0, 0, 0, 255)`. -/
def cmdFillOk (gc : RGBA) (c : Cmd) : Prop :=
  match c with
  | Cmd.hline _ f _ => f = gc
  | Cmd.vline _ f _ => f = gc
  | Cmd.rect _ _ _ _ f => f = ⟨255, 255, 255, 200⟩
  | Cmd.text _ _ _ f => f = ⟨0, 0, 0, 255⟩

theorem cmdFillOk_rowStep (H S t : Nat) (gc : RGBA) (bbox : BBoxFn) (i : Nat) :
    ∀ c ∈ rowStep H S t gc bbox i, cmdFillOk gc c := by
  intro c hc
  unfold rowStep at hc
  split at hc
  · simp at hc
  · simp only [List.mem_cons, List.not_mem_nil, or_false] at hc
    rcases hc with rfl | rfl | rfl <;> simp [cmdFillOk]

theorem cmdFillOk_colStep (W S t : Nat) (gc : RGBA) (bbox : BBoxFn) (i : Nat) :
    ∀ c ∈ colStep W S t gc bbox i, cmdFillOk gc c := by
  intro c hc
  unfold colStep at hc
  split at hc
  · simp at hc
  · simp only [List.mem_cons, List.not_mem_nil, or_false] at hc
    rcases hc with rfl | rfl | rfl <;> simp [cmdFillOk]

theorem cmdFillOk_draw_grid (W H S : Nat) (color : Nat × Nat × Nat)
    (op t : Nat) (bbox : BBoxFn) :
    ∀ c ∈ draw_grid_cmds W H S color op t bbox,
      cmdFillOk ⟨color.1, color.2.1, color.2.2, op⟩ c := by
  intro c hc
  simp only [draw_grid_cmds, List.mem_append, List.mem_flatMap,
    List.mem_range] at hc
  rcases hc with ⟨i, _, hci⟩ | ⟨i, _, hci⟩
  · exact cmdFillOk_rowStep H S t _ bbox i c hci
  · exact cmdFillOk_colStep W S t _ bbox i c hci

theorem foldl_applyCmd_untouched (W H : Nat) (bbox : BBoxFn)
    (p : Nat × Nat) :
    ∀ (cmds : List Cmd) (init : Nat × Nat → RGBA),
      (∀ c ∈ cmds, inFootprint W H bbox c p = false) →
      cmds.foldl (applyCmd W H bbox) init p = init p := by
  intro cmds
  induction cmds with
  | nil => intro init _; rfl
  | cons c cs ih =>
    intro init h
    have h1 := h c (List.mem_cons_self c cs)
    have h2 : ∀ d ∈ cs, inFootprint W H bbox d p = false :=
      fun d hd => h d (List.mem_cons_of_mem c hd)
    rw [List.foldl_cons, ih _ h2]
    simp [applyCmd, h1]

theorem foldl_applyCmd_last_fill (W H : Nat) (bbox : BBoxFn)
    (p : Nat × Nat) (F : RGBA) :
    ∀ (cmds : List Cmd) (init : Nat × Nat → RGBA),
      (∀ c ∈ cmds, inFootprint W H bbox c p = true → fillOf c = F) →
      (∃ c ∈ cmds, inFootprint W H bbox c p = true) →
      cmds.foldl (applyCmd W H bbox) init p = F := by
  intro cmds
  induction cmds with
  | nil => intro init _ hex; exact absurd hex (by simp)
  | cons c cs ih =>
    intro init hall hex
    rw [List.foldl_cons]
    by_cases hcs : ∃ d ∈ cs, inFootprint W H bbox d p = true
    · exact ih _ (fun d hd => hall d (List.mem_cons_of_mem c hd)) hcs
    · push_neg at hcs
      have hnone : ∀ d ∈ cs, inFootprint W H bbox d p = false :=
        fun d hd => Bool.eq_false_iff.mpr (hcs d hd)
      rw [foldl_applyCmd_untouched W H bbox p cs _ hnone]
      have hc : inFootprint W H bbox c p = true := by
        rcases hex with ⟨d, hd, hdt⟩
        rcases List.mem_cons.mp hd with rfl | hmem
        · exact hdt
        · rw [hnone d hmem] at hdt; cases hdt
      have hfill := hall c (List.mem_cons_self c cs) hc
      simp [applyCmd, hc, hfill]

theorem renderOverlay_untouched (W H : Nat) (bbox : BBoxFn)
    (cmds : List Cmd) (p : Nat × Nat)
    (h : ∀ c ∈ cmds, inFootprint W H bbox c p = false) :
    renderOverlay W H bbox cmds p = ⟨0, 0, 0, 0⟩ :=
  foldl_applyCmd_untouched W H bbox p cmds _ h

theorem renderOverlay_last_fill (W H : Nat) (bbox : BBoxFn)
    (cmds : List Cmd) (p : Nat × Nat) (F : RGBA)
    (hall : ∀ c ∈ cmds, inFootprint W H bbox c p = true → fillOf c = F)
    (hex : ∃ c ∈ cmds, inFootprint W H bbox c p = true) :
    renderOverlay W H bbox cmds p = F :=
  foldl_applyCmd_last_fill W H bbox p F cmds _ hall hex

theorem alpha_over_transparent_src (s d : RGBA) (h : s.a = 0) :
    alpha_over s d = d := by
  cases s with
  | mk sr sg sb sa =>
    cases d with
    | mk dr dg db da =>
      simp only at h
      subst h
      simp only [alpha_over, Nat.zero_mul, Nat.mul_zero, Nat.zero_add,
        Nat.sub_zero]
      by_cases hda : da = 0
      · subst hda; norm_num
      · have hpos : 0 < da * 255 := Nat.mul_pos (Nat.pos_of_ne_zero hda)
          (by norm_num)
        rw [if_neg (Nat.pos_iff_ne_zero.mp hpos)]
        simp only [RGBA.mk.injEq]
        refine ⟨?_, ?_, ?_, ?_⟩
        · exact Nat.mul_div_cancel dr hpos
        · exact Nat.mul_div_cancel dg hpos
        · exact Nat.mul_div_cancel db hpos
        · exact Nat.mul_div_cancel da (by norm_num)

theorem alpha_over_opaque_src (s d : RGBA) (h : s.a = 255) :
    alpha_over s d = ⟨s.r, s.g, s.b, 255⟩ := by
  cases s with
  | mk sr sg sb sa =>
    cases d with
    | mk dr dg db da =>
      simp only at h
      subst h
      simp only [alpha_over]
      norm_num
      omega

/-- C1: for every index, `get_column_label` returns the single letter at
alphabet position `index` when `index < 26`, and otherwise the two-letter
string of the letter at position `(index div 26) - 1` followed by the
letter at position `(index mod 26)`; in particular (as code points)
label(0) = "A", label(25) = "Z", label(26) = "AA", label(51) = "AZ",
label(52) = "BA", label(77) = "BZ", label(78) = "CA". -/
theorem get_column_label_matches_spec :
    (∀ index : Nat, get_column_label index = label_spec index) ∧
    get_column_label 0 = [65] ∧ get_column_label 25 = [90] ∧
    get_column_label 26 = [65, 65] ∧ get_column_label 51 = [65, 90] ∧
    get_column_label 52 = [66, 65] ∧ get_column_label 77 = [66, 90] ∧
    get_column_label 78 = [67, 65] := by
  refine ⟨?_, by decide, by decide, by decide, by decide, by decide,
    by decide, by decide⟩
  intro n
  unfold get_column_label label_spec
  split
  · rfl
  · rename_i h
    congr 1
    omega

theorem get_column_label_matches_spec_witness :
    get_column_label 100 = label_spec 100 :=
  get_column_label_matches_spec.1 100

/-- C5: the column label function is injective: distinct indices always get
distinct labels. -/
theorem get_column_label_injective (i j : Nat) (hne : i ≠ j) :
    get_column_label i ≠ get_column_label j := by
  intro heq
  unfold get_column_label at heq
  by_cases hi : i < 26
  · by_cases hj : j < 26
    · rw [if_pos hi, if_pos hj] at heq
      simp only [List.cons.injEq, and_true] at heq
      omega
    · rw [if_pos hi, if_neg hj] at heq
      simp at heq
  · by_cases hj : j < 26
    · rw [if_neg hi, if_pos hj] at heq
      simp at heq
    · rw [if_neg hi, if_neg hj] at heq
      simp only [List.cons.injEq, and_true] at heq
      omega

theorem get_column_label_injective_witness :
    get_column_label 0 ≠ get_column_label 1 :=
  get_column_label_injective 0 1 (by decide)

/-- C10: for 26 ≤ index < 702 the two-letter label consists only of the
letters A-Z (code points 65..90); for index ≥ 702 the first character,
`chr(65 + (index div 26) - 1)`, lies beyond Z, so the label contains a
non-alphabetic character. -/
theorem get_column_label_alphabetic_range (n : Nat) :
    (26 ≤ n → n < 702 → ∀ c ∈ get_column_label n, 65 ≤ c ∧ c ≤ 90) ∧
    (702 ≤ n →
      (get_column_label n).head? = some (65 + n / 26 - 1) ∧
      90 < 65 + n / 26 - 1 ∧
      ∃ c ∈ get_column_label n, ¬(65 ≤ c ∧ c ≤ 90)) := by
  constructor
  · intro h1 h2 c hc
    unfold get_column_label at hc
    rw [if_neg (by omega)] at hc
    simp only [List.mem_cons, List.not_mem_nil, or_false] at hc
    rcases hc with rfl | rfl <;> omega
  · intro h
    unfold get_column_label
    rw [if_neg (by omega)]
    exact ⟨rfl, by omega, 65 + n / 26 - 1, List.mem_cons_self _ _, by omega⟩

theorem get_column_label_alphabetic_range_witness :
    (∀ c ∈ get_column_label 26, 65 ≤ c ∧ c ≤ 90) ∧
    90 < 65 + 702 / 26 - 1 :=
  ⟨(get_column_label_alphabetic_range 26).1 (by decide) (by decide),
   ((get_column_label_alphabetic_range 702).2 (by decide)).2.1⟩

/-- C7: the image returned by `draw_grid` has exactly the width and height
of the input image. -/
theorem draw_grid_preserves_size (image : Img) (S : Nat)
    (color : Nat × Nat × Nat) (op t : Nat) (bbox : BBoxFn) :
    (draw_grid image S color op t bbox).width = image.width ∧
    (draw_grid image S color op t bbox).height = image.height :=
  ⟨rfl, rfl⟩

theorem draw_grid_preserves_size_witness :
    (draw_grid image0 8 (0, 0, 255) 128 2 bbox0).width = image0.width ∧
    (draw_grid image0 8 (0, 0, 255) 128 2 bbox0).height = image0.height :=
  draw_grid_preserves_size image0 8 (0, 0, 255) 128 2 bbox0

/-- C8: when the input exists and the image opens, an opacity outside
[0, 255] is reset to the default 128 with a warning, and the exit code is
the same as it would have been with the default opacity; an opacity inside
[0, 255] is used unchanged, without the warning. -/
theorem opacity_validation (e : Env) (h1 : e.input_exists = true)
    (h2 : e.image_openable = true) :
    (¬(0 ≤ e.opacity ∧ e.opacity ≤ 255) →
      (main_run e).used_opacity = some 128 ∧
      (main_run e).opacity_warning = true ∧
      (main_run e).exit_code =
        (main_run ⟨e.input_exists, e.image_openable, 128,
          e.render_and_save_ok⟩).exit_code) ∧
    ((0 ≤ e.opacity ∧ e.opacity ≤ 255) →
      (main_run e).used_opacity = some e.opacity ∧
      (main_run e).opacity_warning = false) := by
  cases e with
  | mk ie io op rs =>
    simp only at h1 h2
    subst h1
    subst h2
    constructor
    · intro hbad
      cases rs <;> simp [main_run, hbad]
    · intro hgood
      cases rs <;> simp [main_run, hgood]

theorem opacity_validation_witness :
    (main_run ⟨true, true, 300, true⟩).used_opacity = some 128 ∧
    (main_run ⟨true, true, 300, true⟩).opacity_warning = true ∧
    (main_run ⟨true, true, 300, true⟩).exit_code =
      (main_run ⟨true, true, 128, true⟩).exit_code :=
  (opacity_validation ⟨true, true, 300, true⟩ rfl rfl).1 (by decide)

/-- C9: `main` returns exit code 0 exactly when the input exists, the image
opens, and rendering and saving complete; every handled error returns exit
code 1 with a message on standard error. -/
theorem main_exit_codes (e : Env) :
    ((main_run e).exit_code = 0 ↔
      e.input_exists = true ∧ e.image_openable = true ∧
        e.render_and_save_ok = true) ∧
    ((main_run e).exit_code ≠ 0 →
      (main_run e).exit_code = 1 ∧ (main_run e).stderr ≠ []) := by
  cases e with
  | mk ie io op rs =>
    cases ie <;> cases io <;> cases rs <;> simp [main_run]

theorem main_exit_codes_witness :
    (main_run ⟨false, true, 128, true⟩).exit_code = 1 ∧
    (main_run ⟨false, true, 128, true⟩).stderr ≠ [] :=
  (main_exit_codes ⟨false, true, 128, true⟩).2 (by decide)

theorem vlineX_rowStep (H S t : Nat) (gc : RGBA) (bbox : BBoxFn) (i : Nat) :
    ∀ c ∈ rowStep H S t gc bbox i, vlineX c = none := by
  intro c hc
  unfold rowStep at hc
  split at hc
  · simp at hc
  · simp only [List.mem_cons, List.not_mem_nil, or_false] at hc
    rcases hc with rfl | rfl | rfl <;> rfl

theorem hlineY_colStep (W S t : Nat) (gc : RGBA) (bbox : BBoxFn) (i : Nat) :
    ∀ c ∈ colStep W S t gc bbox i, hlineY c = none := by
  intro c hc
  unfold colStep at hc
  split at hc
  · simp at hc
  · simp only [List.mem_cons, List.not_mem_nil, or_false] at hc
    rcases hc with rfl | rfl | rfl <;> rfl

theorem vlineX_colStep (W S t : Nat) (gc : RGBA) (bbox : BBoxFn)
    (i x : Nat) :
    (∃ c ∈ colStep W S t gc bbox i, vlineX c = some x) ↔
      i * S < W ∧ x = i * S := by
  unfold colStep
  split
  · rename_i h
    constructor
    · rintro ⟨c, hc, -⟩
      exact absurd hc (List.not_mem_nil c)
    · rintro ⟨h1, -⟩
      exact absurd h1 (Nat.not_lt.mpr h)
  · rename_i h
    constructor
    · rintro ⟨c, hc, hx⟩
      simp only [List.mem_cons, List.not_mem_nil, or_false] at hc
      rcases hc with rfl | rfl | rfl
      · simp only [vlineX, Option.some.injEq] at hx
        exact ⟨Nat.lt_of_not_le h, hx.symm⟩
      · simp [vlineX] at hx
      · simp [vlineX] at hx
    · rintro ⟨h1, rfl⟩
      exact ⟨Cmd.vline (i * S) gc t, by simp, rfl⟩

theorem hlineY_rowStep (H S t : Nat) (gc : RGBA) (bbox : BBoxFn)
    (i y : Nat) :
    (∃ c ∈ rowStep H S t gc bbox i, hlineY c = some y) ↔
      i * S < H ∧ y = i * S := by
  unfold rowStep
  split
  · rename_i h
    constructor
    · rintro ⟨c, hc, -⟩
      exact absurd hc (List.not_mem_nil c)
    · rintro ⟨h1, -⟩
      exact absurd h1 (Nat.not_lt.mpr h)
  · rename_i h
    constructor
    · rintro ⟨c, hc, hy⟩
      simp only [List.mem_cons, List.not_mem_nil, or_false] at hc
      rcases hc with rfl | rfl | rfl
      · simp only [hlineY, Option.some.injEq] at hy
        exact ⟨Nat.lt_of_not_le h, hy.symm⟩
      · simp [hlineY] at hy
      · simp [hlineY] at hy
    · rintro ⟨h1, rfl⟩
      exact ⟨Cmd.hline (i * S) gc t, by simp, rfl⟩

theorem mem_verticalOffsets_draw_grid (W H S : Nat)
    (color : Nat × Nat × Nat) (op t : Nat) (bbox : BBoxFn) (x : Nat) :
    x ∈ verticalOffsets (draw_grid_cmds W H S color op t bbox) ↔
      ∃ i, i ≤ W / S ∧ x = i * S ∧ x < W := by
  unfold verticalOffsets
  simp only [List.mem_filterMap, draw_grid_cmds, List.mem_append,
    List.mem_flatMap, List.mem_range]
  constructor
  · rintro ⟨c, hc | hc, hx⟩
    · obtain ⟨i, -, hci⟩ := hc
      rw [vlineX_rowStep H S t _ bbox i c hci] at hx
      cases hx
    · obtain ⟨i, hi, hci⟩ := hc
      have h2 := (vlineX_colStep W S t _ bbox i x).mp ⟨c, hci, hx⟩
      exact ⟨i, Nat.lt_succ_iff.mp hi, h2.2, h2.2 ▸ h2.1⟩
  · rintro ⟨i, hi, rfl, hlt⟩
    obtain ⟨c, hc, hx⟩ := (vlineX_colStep W S t
      ⟨color.1, color.2.1, color.2.2, op⟩ bbox i (i * S)).mpr ⟨hlt, rfl⟩
    exact ⟨c, Or.inr ⟨i, Nat.lt_succ_iff.mpr hi, hc⟩, hx⟩

theorem mem_horizontalOffsets_draw_grid (W H S : Nat)
    (color : Nat × Nat × Nat) (op t : Nat) (bbox : BBoxFn) (y : Nat) :
    y ∈ horizontalOffsets (draw_grid_cmds W H S color op t bbox) ↔
      ∃ i, i ≤ H / S ∧ y = i * S ∧ y < H := by
  unfold horizontalOffsets
  simp only [List.mem_filterMap, draw_grid_cmds, List.mem_append,
    List.mem_flatMap, List.mem_range]
  constructor
  · rintro ⟨c, hc | hc, hy⟩
    · obtain ⟨i, hi, hci⟩ := hc
      have h2 := (hlineY_rowStep H S t _ bbox i y).mp ⟨c, hci, hy⟩
      exact ⟨i, Nat.lt_succ_iff.mp hi, h2.2, h2.2 ▸ h2.1⟩
    · obtain ⟨i, -, hci⟩ := hc
      rw [hlineY_colStep W S t _ bbox i c hci] at hy
      cases hy
  · rintro ⟨i, hi, rfl, hlt⟩
    obtain ⟨c, hc, hy⟩ := (hlineY_rowStep H S t
      ⟨color.1, color.2.1, color.2.2, op⟩ bbox i (i * S)).mpr ⟨hlt, rfl⟩
    exact ⟨c, Or.inl ⟨i, Nat.lt_succ_iff.mpr hi, hc⟩, hy⟩

theorem draw_grid_px_eq (image : Img) (S : Nat) (color : Nat × Nat × Nat)
    (op t : Nat) (bbox : BBoxFn) (p : Nat × Nat) :
    (draw_grid image S color op t bbox).px p =
      alpha_over (renderOverlay image.width image.height bbox
        (draw_grid_cmds image.width image.height S color op t bbox) p)
        (image.px p) := rfl

/-- C2: the set of vertical line offsets drawn is exactly the multiples
i * S for i in [0, W div S] with i * S < W, and analogously for horizontal
lines with H; no line is drawn at an offset at or beyond the corresponding
dimension, and offset 0 is included whenever the dimension is positive. -/
theorem grid_line_offsets (W H S : Nat) (color : Nat × Nat × Nat)
    (op t : Nat) (bbox : BBoxFn) (_hS : 0 < S) :
    (∀ x, x ∈ verticalOffsets (draw_grid_cmds W H S color op t bbox) ↔
      ∃ i, i ≤ W / S ∧ x = i * S ∧ x < W) ∧
    (∀ y, y ∈ horizontalOffsets (draw_grid_cmds W H S color op t bbox) ↔
      ∃ i, i ≤ H / S ∧ y = i * S ∧ y < H) ∧
    (∀ x ∈ verticalOffsets (draw_grid_cmds W H S color op t bbox), x < W) ∧
    (∀ y ∈ horizontalOffsets (draw_grid_cmds W H S color op t bbox),
      y < H) ∧
    (0 < W → 0 ∈ verticalOffsets (draw_grid_cmds W H S color op t bbox)) ∧
    (0 < H →
      0 ∈ horizontalOffsets (draw_grid_cmds W H S color op t bbox)) := by
  refine ⟨fun x => mem_verticalOffsets_draw_grid W H S color op t bbox x,
    fun y => mem_horizontalOffsets_draw_grid W H S color op t bbox y,
    ?_, ?_, ?_, ?_⟩
  · intro x hx
    obtain ⟨i, -, -, hlt⟩ :=
      (mem_verticalOffsets_draw_grid W H S color op t bbox x).mp hx
    exact hlt
  · intro y hy
    obtain ⟨i, -, -, hlt⟩ :=
      (mem_horizontalOffsets_draw_grid W H S color op t bbox y).mp hy
    exact hlt
  · intro hW
    exact (mem_verticalOffsets_draw_grid W H S color op t bbox 0).mpr
      ⟨0, Nat.zero_le _, (Nat.zero_mul S).symm, hW⟩
  · intro hH
    exact (mem_horizontalOffsets_draw_grid W H S color op t bbox 0).mpr
      ⟨0, Nat.zero_le _, (Nat.zero_mul S).symm, hH⟩

theorem grid_line_offsets_witness :
    0 ∈ verticalOffsets (draw_grid_cmds 20 20 8 (0, 0, 255) 128 2 bbox0) :=
  (grid_line_offsets 20 20 8 (0, 0, 255) 128 2 bbox0
    (by norm_num)).2.2.2.2.1 (by norm_num)

/-- C3 amended: every label background rectangle drawn by `draw_grid` is
near-white with alpha 200 (semi-transparent, not fully opaque), and every
label text is drawn in opaque black (alpha 255) over it. -/
theorem label_fill_colors (W H S : Nat) (color : Nat × Nat × Nat)
    (op t : Nat) (bbox : BBoxFn) :
    ∀ c ∈ draw_grid_cmds W H S color op t bbox,
      (isRect c = true → fillOf c = ⟨255, 255, 255, 200⟩) ∧
      (isText c = true → fillOf c = ⟨0, 0, 0, 255⟩) := by
  intro c hc
  have h := cmdFillOk_draw_grid W H S color op t bbox c hc
  cases c <;> simp [cmdFillOk, isRect, isText, fillOf] at h ⊢ <;> exact h

theorem label_fill_colors_witness :
    Cmd.rect 8 2 18 17 ⟨255, 255, 255, 200⟩ ∈ cmds0 ∧
    fillOf (Cmd.rect 8 2 18 17 ⟨255, 255, 255, 200⟩) =
      ⟨255, 255, 255, 200⟩ :=
  ⟨by decide, (label_fill_colors 20 20 8 (0, 0, 255) 0 2 bbox0
    (Cmd.rect 8 2 18 17 ⟨255, 255, 255, 200⟩) (by decide)).1 rfl⟩

/-- C3 counterexample: in a concrete run of `draw_grid` there is a label
background rectangle whose fill alpha is not 255 (it is 200), refuting the
claim that label backgrounds are rendered fully opaque. -/
theorem label_background_not_opaque_cex :
    ∃ c ∈ cmds0, isRect c = true ∧ (fillOf c).a ≠ 255 := by
  decide

/-- C4: every pixel lying strictly outside all line strokes and all label
background/text bounding boxes keeps exactly the original image's colour
and alpha after compositing. -/
theorem pixels_outside_drawn_regions_unchanged (image : Img) (S : Nat)
    (color : Nat × Nat × Nat) (op t : Nat) (bbox : BBoxFn) (p : Nat × Nat)
    (h : ∀ c ∈ draw_grid_cmds image.width image.height S color op t bbox,
      inFootprint image.width image.height bbox c p = false) :
    (draw_grid image S color op t bbox).px p = image.px p := by
  rw [draw_grid_px_eq,
    renderOverlay_untouched image.width image.height bbox _ p h]
  exact alpha_over_transparent_src _ _ rfl

theorem pixels_outside_drawn_regions_unchanged_witness :
    (draw_grid image0 8 (0, 0, 255) 128 2 bbox0).px (19, 4) =
      image0.px (19, 4) :=
  pixels_outside_drawn_regions_unchanged image0 8 (0, 0, 255) 128 2 bbox0
    (19, 4) (by decide)

/-- C6 amended: at every grid-line pixel not covered by any label
background or label text box, opacity 0 leaves the composited pixel exactly
equal to the original, and opacity 255 makes it fully opaque with exactly
the configured RGB colour.  (Grid-line pixels under a label background or
text are excluded: labels are drawn over the lines regardless of the
line opacity.) -/
theorem opacity_extremes_off_label (image : Img) (S : Nat)
    (color : Nat × Nat × Nat) (op t : Nat) (bbox : BBoxFn) (p : Nat × Nat)
    (hl : ∃ c ∈ draw_grid_cmds image.width image.height S color op t bbox,
      isLine c = true ∧
        inFootprint image.width image.height bbox c p = true)
    (hnl : ∀ c ∈ draw_grid_cmds image.width image.height S color op t bbox,
      isLine c = false →
        inFootprint image.width image.height bbox c p = false) :
    (op = 0 → (draw_grid image S color op t bbox).px p = image.px p) ∧
    (op = 255 → (draw_grid image S color op t bbox).px p =
      ⟨color.1, color.2.1, color.2.2, 255⟩) := by
  have hover : renderOverlay image.width image.height bbox
      (draw_grid_cmds image.width image.height S color op t bbox) p =
      ⟨color.1, color.2.1, color.2.2, op⟩ := by
    apply renderOverlay_last_fill
    · intro c hc hfp
      have hclass :=
        cmdFillOk_draw_grid image.width image.height S color op t bbox c hc
      by_cases hline : isLine c = true
      · cases c <;> simp [isLine] at hline <;>
          simpa [fillOf, cmdFillOk] using hclass
      · have hf := hnl c hc (Bool.eq_false_iff.mpr hline)
        rw [hf] at hfp
        cases hfp
    · obtain ⟨c, hc, -, hfp⟩ := hl
      exact ⟨c, hc, hfp⟩
  constructor
  · intro hop
    rw [draw_grid_px_eq, hover]
    exact alpha_over_transparent_src _ _ hop
  · intro hop
    rw [draw_grid_px_eq, hover]
    rw [alpha_over_opaque_src _ _ hop]

theorem opacity_extremes_off_label_witness :
    (draw_grid image0 8 (0, 0, 255) 255 2 bbox0).px (5, 0) =
      ⟨0, 0, 255, 255⟩ :=
  (opacity_extremes_off_label image0 8 (0, 0, 255) 255 2 bbox0 (5, 0)
    (by decide) (by decide)).2 rfl

/-- C6 counterexample: with opacity 0, pixel (5, 8) of the 20 by 20 test
image lies on the horizontal grid line at y = 8, yet its composited colour
differs from the original: the column label "A"'s background rectangle,
drawn regardless of opacity, covers that line pixel. -/
theorem opacity_zero_grid_pixel_changed_cex :
    (∃ c ∈ draw_grid_cmds 20 20 8 (0, 0, 255) 0 2 bbox0,
      isLine c = true ∧ inFootprint 20 20 bbox0 c (5, 8) = true) ∧
    (draw_grid image0 8 (0, 0, 255) 0 2 bbox0).px (5, 8) ≠
      image0.px (5, 8) := by
  constructor
  · decide
  · decide
